import Mathlib

/-!
# Documentation bot: command handlers (`bot/handlers.go`)

A shallow embedding of the handlers of the documentation bot and the properties
of its lookup cache, its detail renderers, its pagination set-up and its
argument dispatch.

Conventions of the embedding.

* A Go `string` is a sequence of bytes: `GoString := List UInt8`.  `len(s)` is
  `s.length`, `s[:k]` is `sliceTo s k` (fallible, as in Go), `a + b` and
  `fmt.Sprintf` with `%s`/`%v` verbs on strings are concatenation.
* A Go pointer that may be `nil` is an `Option`.
* A run-time panic (nil dereference, index or slice out of range) is the error
  side of `Except Panic`.
* The Unicode-aware functions of the Go standard library (`strings.Fields`,
  `strings.ToLower`, `strings.EqualFold`, the `%q` verb) are parameters of the
  model, bundled in `Strings`; `asciiStrings` is their restriction to ASCII
  text, used to evaluate the handlers on concrete inputs.
* Global variables (`StdlibCache`) and external collaborators (`docs.GetDoc`,
  the chat session) are explicit arguments and explicit outputs.
-/

namespace Bot

/-! ## Strings -/

/-- A Go string: a sequence of bytes. -/
abbrev GoString := List UInt8

/-- A Go string literal of the source (all literals of the source are ASCII, for
which the byte sequence is the sequence of character codes). -/
def lit (s : String) : GoString := s.data.map (fun c => UInt8.ofNat c.toNat)

/-- Go run-time panics that the handlers could raise. -/
inductive Panic where
  | nilDereference
  | indexOutOfRange
  | sliceOutOfRange
  deriving DecidableEq, Repr

/-- Results of fallible code can be compared. -/
instance exceptDecEq {ε α : Type} [DecidableEq ε] [DecidableEq α] : DecidableEq (Except ε α)
  | .ok a, .ok b => if h : a = b then isTrue (by rw [h]) else isFalse (fun h2 => h (by cases h2; rfl))
  | .error a, .error b =>
    if h : a = b then isTrue (by rw [h]) else isFalse (fun h2 => h (by cases h2; rfl))
  | .ok _, .error _ => isFalse (fun h => by cases h)
  | .error _, .ok _ => isFalse (fun h => by cases h)

/-- Go `xs[i]`: panics when `i` is not below `len(xs)`. -/
def index {α : Type} (xs : List α) (i : Nat) : Except Panic α :=
  match xs.get? i with
  | some x => .ok x
  | none => .error .indexOutOfRange

/-- Go `s[:hi]`: panics when `hi` exceeds `len(s)`. -/
def sliceTo (s : GoString) (hi : Nat) : Except Panic GoString :=
  if hi ≤ s.length then .ok (s.take hi) else .error .sliceOutOfRange

/-- Go `strings.Contains(s, sep)` for a one-byte `sep` (the source only ever
passes `"."`). -/
def Contains (s : GoString) (sep : UInt8) : Bool := s.contains sep

/-- Go `strings.Split(s, sep)` for a one-byte `sep` (the source only ever passes
`"."`): the pieces of `s` between consecutive occurrences of `sep`. -/
def Split : GoString → UInt8 → List GoString
  | [], _ => [[]]
  | c :: cs, sep =>
    if c = sep then [] :: Split cs sep
    else
      match Split cs sep with
      | [] => [[c]]
      | p :: ps => (c :: p) :: ps

/-- The byte of the separator `"."`. -/
def dot : UInt8 := 46

/-- Go `fmt.Sprint(n)` / the `%v` verb on a non-negative `int`. -/
def itoa (n : Nat) : GoString := lit (Nat.repr n)

/-- The Unicode-aware string functions of the Go standard library used by the
handlers. -/
structure Strings where
  /-- Go `strings.Fields`. -/
  Fields : GoString → List GoString
  /-- Go `strings.ToLower`. -/
  ToLower : GoString → GoString
  /-- Go `strings.EqualFold`. -/
  EqualFold : GoString → GoString → Bool
  /-- Go `%q` verb of `fmt.Sprintf` on a string. -/
  Quote : GoString → GoString

/-- ASCII white space, as `strings.Fields` sees it on ASCII text. -/
def asciiSpace (b : UInt8) : Bool :=
  b = 32 || (9 ≤ b && b ≤ 13)

/-- ASCII lower-casing of one byte. -/
def asciiLower (b : UInt8) : UInt8 :=
  if 65 ≤ b ∧ b ≤ 90 then b + 32 else b

/-- Scan for `strings.Fields` on ASCII text; `cur` is the current field, reversed. -/
def asciiFieldsAux : GoString → GoString → List GoString
  | [], cur => if cur.isEmpty then [] else [cur.reverse]
  | c :: cs, cur =>
    if asciiSpace c then
      (if cur.isEmpty then asciiFieldsAux cs [] else cur.reverse :: asciiFieldsAux cs [])
    else asciiFieldsAux cs (c :: cur)

/-- The string library on ASCII text; `Quote` is the `%q` verb on printable text
without double quotes and backslashes, which `%q` only wraps in double quotes. -/
def asciiStrings : Strings where
  Fields s := asciiFieldsAux s []
  ToLower s := s.map asciiLower
  EqualFold a b := a.map asciiLower == b.map asciiLower
  Quote s := lit "\"" ++ s ++ lit "\""

/-! ## Data model -/

/-- Modelled from the spec: the kind of a `docs.Function` (`docs.FnNormal`,
`docs.FnMethod`); the `docs` package is not part of the sources at hand. -/
inductive FnType where
  | FnNormal
  | FnMethod
  deriving DecidableEq, Repr

/-- Modelled from the spec: `docs.Function`, with the fields the handlers read. -/
structure Function where
  Name : GoString
  Type_ : FnType
  MethodOf : GoString
  Signature : GoString
  Comments : List GoString
  Example : GoString
  deriving DecidableEq, Repr

/-- Modelled from the spec: `docs.Type`, with the fields the handlers read. -/
structure DocType where
  Name : GoString
  Signature : GoString
  Comments : List GoString
  deriving DecidableEq, Repr

/-- Modelled from the spec: `docs.Doc`, with the fields the handlers read. -/
structure Doc where
  URL : GoString
  Functions : List Function
  Types : List DocType
  deriving DecidableEq, Repr

/-- The part of `discordgo.MessageEmbed` the handlers fill in; `Footer` is the
footer text, absent when the embed has no footer. -/
structure MessageEmbed where
  Title : GoString
  Description : GoString
  Footer : Option GoString
  deriving DecidableEq, Repr

/-- A Go `error` value. -/
abbrev GoError := GoString

/-- The global `StdlibCache`, a Go `map[string]*docs.Doc`: `none` when the key is
absent, `some none` when the key is present with a `nil` pointer, `some (some d)`
when the key is present with document `d`. -/
abbrev Cache := GoString → Option (Option Doc)

/-- The collaborator `docs.GetDoc`: a Go pair `(*docs.Doc, error)`. -/
abbrev Fetch := GoString → Option Doc × Option GoError

/-! ## The cache wrapper -/

/-- What one call of `getDoc` returns and does. -/
structure GetDocOut where
  /-- The returned `*docs.Doc`. -/
  doc : Option Doc
  /-- The returned `error`. -/
  err : Option GoError
  /-- The global `StdlibCache` after the call. -/
  cache : Cache
  /-- The arguments of the calls of `docs.GetDoc` made during the call, in order. -/
  fetched : List GoString

/-- Go `getDoc`. -/
def getDoc (StdlibCache : Cache) (GetDoc : Fetch) (pkg : GoString) : GetDocOut :=
  -- doc, ok := StdlibCache[pkg]
  let ok : Bool := (StdlibCache pkg).isSome
  let cached : Option Doc := (StdlibCache pkg).join
  if !ok || cached.isNone then
    -- doc, err = docs.GetDoc(pkg)
    let r := GetDoc pkg
    if r.2.isSome then
      { doc := none, err := r.2, cache := StdlibCache, fetched := [pkg] }
    else if ok && r.1.isSome then
      { doc := r.1, err := none, cache := Function.update StdlibCache pkg (some r.1),
        fetched := [pkg] }
    else
      { doc := r.1, err := none, cache := StdlibCache, fetched := [pkg] }
  else if ok && cached.isSome then
    { doc := cached, err := none, cache := Function.update StdlibCache pkg (some cached),
      fetched := [] }
  else
    { doc := cached, err := none, cache := StdlibCache, fetched := [] }

/-! ## Detail renderers -/

/-- Go `errResponse`; the `fmt.Sprintf` of its format is done by the caller. -/
def errResponse (description : GoString) : MessageEmbed :=
  { Title := lit "Error", Description := description, Footer := none }

/-- The notice `funcResponse` appends to a trimmed body. -/
def funcNotice : GoString :=
  lit "\n\n*note: the message was trimmed to fit the 2k character limit*"

/-- The notice `typeResponse` and `methodResponse` append to a trimmed body. -/
def trimNotice : GoString :=
  lit "\n\n*note: the message is trimmed to fit the 2k character limit*"

/-- The trimming step shared by the three renderers:
`if len(msg) > 2000 { msg = fmt.Sprintf("%s" + notice, msg[:1950]) }`. -/
def trim (notice : GoString) (msg : GoString) : Except Panic GoString :=
  if msg.length > 2000 then do
    let head ← sliceTo msg 1950
    pure (head ++ notice)
  else pure msg

/-- What one matching function adds to `msg` in the loop of `funcResponse`. -/
def funcBlock (fn : Function) : GoString :=
  (lit "`" ++ fn.Signature ++ lit "`") ++
  (match fn.Comments with
    | c :: _ => lit "\n" ++ c
    | [] => lit "\n*no information*") ++
  (if fn.Example ≠ [] then lit "\n\nExample:\n```go\n" ++ fn.Example ++ lit "\n```" else [])

/-- One iteration of the loop of `funcResponse` on the pair `(name, msg)`. -/
def funcStep (L : Strings) (st : GoString × GoString) (fn : Function) : GoString × GoString :=
  if fn.Type_ = FnType.FnNormal ∧ L.EqualFold fn.Name st.1 = true then
    (fn.Name, st.2 ++ funcBlock fn)
  else st

/-- Go `funcResponse`.  The cache after the call is that of `getDoc`. -/
def funcResponse (L : Strings) (StdlibCache : Cache) (GetDoc : Fetch) (pkg name : GoString) :
    Except Panic MessageEmbed :=
  let r := getDoc StdlibCache GetDoc pkg
  if r.err.isSome then
    .ok (errResponse (lit "An error occurred while fetching the page for pkg `" ++ pkg ++ lit "`"))
  else
    match r.doc with
    | none => .error .nilDereference
    | some doc =>
      if doc.Functions.length = 0 then
        .ok (errResponse (lit "No results found for package: " ++ L.Quote pkg ++
          lit ", function: " ++ L.Quote name))
      else
        let st := doc.Functions.foldl (funcStep L) (name, [])
        if st.2 = [] then
          .ok (errResponse (lit "The package `" ++ pkg ++ lit "` does not have function `" ++
            st.1 ++ lit "`"))
        else do
          let msg ← trim funcNotice st.2
          pure { Title := pkg ++ lit ": func " ++ st.1, Description := msg,
                 Footer := some (doc.URL ++ lit "#" ++ st.1) }

/-- What one matching type adds to `msg` in the loop of `typeResponse`. -/
def typeBlock (t : DocType) : GoString :=
  (lit "```go\n" ++ t.Signature ++ lit "\n```") ++
  (match t.Comments with
    | c :: _ => lit "\n" ++ c
    | [] => lit "\n*no information*")

/-- One iteration of the loop of `typeResponse` on the pair `(name, msg)`. -/
def typeStep (L : Strings) (st : GoString × GoString) (t : DocType) : GoString × GoString :=
  if L.EqualFold t.Name st.1 = true then (t.Name, st.2 ++ typeBlock t) else st

/-- Go `typeResponse`.  The cache after the call is that of `getDoc`. -/
def typeResponse (L : Strings) (StdlibCache : Cache) (GetDoc : Fetch) (pkg name : GoString) :
    Except Panic MessageEmbed :=
  let r := getDoc StdlibCache GetDoc pkg
  if r.err.isSome then
    .ok (errResponse (lit "An error occurred while getting the page for the package `" ++ pkg ++
      lit "`"))
  else
    match r.doc with
    | none => .error .nilDereference
    | some doc =>
      if doc.Types.length = 0 then
        .ok (errResponse (lit "Package `" ++ pkg ++ lit "` seems to have no type definitions"))
      else
        let st := doc.Types.foldl (typeStep L) (name, [])
        if st.2 = [] then
          .ok (errResponse (lit "Package `" ++ pkg ++ lit "` does not have type `" ++ st.1 ++
            lit "`"))
        else do
          let msg ← trim trimNotice st.2
          pure { Title := pkg ++ lit ": type " ++ st.1, Description := msg,
                 Footer := some (doc.URL ++ lit "#" ++ st.1) }

/-- Go `DocsHelpEmbed`. -/
def DocsHelpEmbed : MessageEmbed :=
  { Title := lit "Docs help!", Description := [], Footer := none }

/-- Go `helpShortResponse`. -/
def helpShortResponse : MessageEmbed := DocsHelpEmbed

/-- Go `pkgResponse`.  The cache after the call is that of `getDoc`. -/
def pkgResponse (StdlibCache : Cache) (GetDoc : Fetch) (pkg : GoString) :
    Except Panic MessageEmbed :=
  let r := getDoc StdlibCache GetDoc pkg
  if r.err.isSome then
    .ok (errResponse (lit "An error occured when requesting the page for the package `" ++ pkg ++
      lit "`"))
  else
    match r.doc with
    | none => .error .nilDereference
    | some doc =>
      .ok { Title := lit "Info for " ++ pkg,
            Description := lit "Types: " ++ itoa doc.Types.length ++ lit "\nFunctions:" ++
              itoa doc.Functions.length,
            Footer := none }

/-- What one matching method adds to `msg` in the loop of `methodResponse`. -/
def methodBlock (fn : Function) : GoString :=
  (lit "`" ++ fn.Signature ++ lit "`") ++
  (match fn.Comments with
    | c :: _ => lit "\n" ++ c
    | [] => lit "\n*no info*") ++
  (if fn.Example ≠ [] then lit "\nExample:\n```\n" ++ fn.Example ++ lit "\n```" else [])

/-- One iteration of the loop of `methodResponse` on the pair `(name, msg)`. -/
def methodStep (L : Strings) (t : GoString) (st : GoString × GoString) (fn : Function) :
    GoString × GoString :=
  if fn.Type_ = FnType.FnMethod ∧ L.EqualFold fn.Name st.1 = true ∧
      L.EqualFold fn.MethodOf t = true then
    (fn.Name, st.2 ++ methodBlock fn)
  else st

/-- Go `methodResponse`.  The cache after the call is that of `getDoc`. -/
def methodResponse (L : Strings) (StdlibCache : Cache) (GetDoc : Fetch) (pkg t name : GoString) :
    Except Panic MessageEmbed :=
  let r := getDoc StdlibCache GetDoc pkg
  if r.err.isSome then
    .ok (errResponse (lit "Error while getting the page for the package `" ++ pkg ++ lit "`"))
  else
    match r.doc with
    | none => .error .nilDereference
    | some doc =>
      if doc.Functions.length = 0 then
        .ok (errResponse (lit "Package `" ++ pkg ++ lit "` seems to have no functions"))
      else
        let st := doc.Functions.foldl (methodStep L t) (name, [])
        if st.2 = [] then
          .ok (errResponse (lit "Package `" ++ pkg ++ lit "` does not have `func(" ++ t ++
            lit ") " ++ st.1 ++ lit "`"))
        else do
          let msg ← trim trimNotice st.2
          pure { Title := pkg ++ lit ": func(" ++ t ++ lit ") " ++ st.1, Description := msg,
                 Footer := some (doc.URL ++ lit "#" ++ st.1) }

/-! ## Argument dispatch -/

/-- The method branch shared by the 3-field and the 4-field form of `HandleDoc`:
`split := strings.Split(arg, "."); methodResponse(fields[1], split[0], split[1])`. -/
def methodBranch (L : Strings) (StdlibCache : Cache) (GetDoc : Fetch) (fields : List GoString)
    (arg : GoString) : Except Panic MessageEmbed := do
  let split := Split arg dot
  let pkg ← index fields 1
  let t ← index split 0
  let name ← index split 1
  methodResponse L StdlibCache GetDoc pkg t name

/-- Go `HandleDoc`: the embed handed to `s.ChannelMessageSendEmbed`, `none` when the
handler returns without sending.  `content` is `m.Content`. -/
def HandleDoc (L : Strings) (StdlibCache : Cache) (GetDoc : Fetch) (content : GoString) :
    Except Panic (Option MessageEmbed) :=
  let fields := L.Fields content
  let finish (msg : Option MessageEmbed) : Option MessageEmbed :=
    match msg with
    | none => some (errResponse (lit "No results found, possibly an internal error."))
    | some e => some e
  match fields.length with
  | 0 => .ok none
  | 1 => .ok (finish (some helpShortResponse))
  | 2 => do
    let pkg ← index fields 1
    let msg ← pkgResponse StdlibCache GetDoc pkg
    pure (finish (some msg))
  | 3 => do
    let arg ← index fields 2
    if Contains arg dot then
      let msg ← methodBranch L StdlibCache GetDoc fields arg
      pure (finish (some msg))
    else
      let pkg ← index fields 1
      let name ← index fields 2
      let msg ← funcResponse L StdlibCache GetDoc pkg name
      pure (finish (some msg))
  | 4 => do
    let kind ← index fields 2
    let lower := L.ToLower kind
    if lower = lit "func" ∨ lower = lit "function" ∨ lower = lit "fn" then
      let arg ← index fields 3
      if Contains arg dot then
        let msg ← methodBranch L StdlibCache GetDoc fields arg
        pure (finish (some msg))
      else
        let pkg ← index fields 1
        let name ← index fields 3
        let msg ← funcResponse L StdlibCache GetDoc pkg name
        pure (finish (some msg))
    else if lower = lit "type" then
      let pkg ← index fields 1
      let name ← index fields 3
      let msg ← typeResponse L StdlibCache GetDoc pkg name
      pure (finish (some msg))
    else
      let shown ← index fields 2
      pure (finish (some (errResponse (lit "Unsupported search type " ++ L.Quote shown ++
        lit "\nValid options are:\n\t`func`\n\t`type`"))))
  | _ => .ok (finish (some (errResponse (lit "Too many arguments."))))

/-! ## Pagination set-up -/

/-- Go `PagesShortResponse`. -/
def PagesShortResponse (state pfx : GoString) : MessageEmbed :=
  { Title := lit "Help " ++ state,
    Description := lit "It seems you didn't have enough arguments, so here's an example!\n\n" ++
      pfx ++ state ++ lit " strings",
    Footer := none }

/-- Go `int(math.Ceil(float64(n) / 10.0))` for a slice length `n`.  The conversion
and the division are exact enough for every length a slice can have (below `2^53`
the quotient never rounds to the next integer), so the result is the integer
ceiling of `n / 10`; `pageLimit_eq_ceil` relates it to the ceiling of the rational
quotient. -/
def pageLimit (n : Nat) : Nat := (n + 9) / 10

/-- The `ReactionListener` value built by the pages commands (its declaration is in
another file of the package; the fields are those of the struct literal). -/
structure ReactionListener where
  Type_ : GoString
  CurrentPage : Nat
  PageLimit : Nat
  UserID : GoString
  Data : Doc
  LastUsed : Int
  deriving DecidableEq, Repr

/-- The reaction controls added to a page message. -/
inductive Control where
  | leftArrow
  | rightArrow
  | destroyEmoji
  deriving DecidableEq, Repr

/-- What one call of a pages command does. -/
structure PagesOut where
  /-- The embeds handed to `s.ChannelMessageSendEmbed`, in order. -/
  sent : List MessageEmbed
  /-- The `ReactionListener` the call constructs. -/
  page : Option ReactionListener
  /-- The reactions added to the sent message, in order. -/
  reactions : List Control
  /-- The entry written to `pageListeners`. -/
  registered : Option (GoString × ReactionListener)
  /-- The global `StdlibCache` after the call. -/
  cache : Cache

/-- The body shared by `FuncsPages` and `TypesPages`, which differ in the help
state (`"getfuncs"` / `"gettypes"`), the listener type (`"functions"` / `"types"`)
and the collection counted.  `formatForMessage` is the page formatter of the
package, `now` the value of `MakeTimestamp()`, `author` is `m.Author.ID`, and
`sendResult` is what `s.ChannelMessageSendEmbed` returns for the page embed: the
identifier of the sent message, or an error. -/
def pagesCommand (helpState kind : GoString) (count : Doc → Nat)
    (L : Strings) (StdlibCache : Cache) (GetDoc : Fetch)
    (formatForMessage : ReactionListener → GoString) (now : Int) (author pfx : GoString)
    (sendResult : Except GoError GoString) (content : GoString) : PagesOut :=
  let fields := L.Fields content
  -- switch len(fields)
  match fields with
  -- case 0
  | [] => { sent := [], page := none, reactions := [], registered := none, cache := StdlibCache }
  -- case 1
  | [_] =>
    { sent := [PagesShortResponse helpState pfx], page := none, reactions := [],
      registered := none, cache := StdlibCache }
  -- case 2, where `pkg` is fields[1]
  | [_, pkg] =>
    let r := getDoc StdlibCache GetDoc pkg
    -- if err != nil || doc == nil
    match r.err, r.doc with
    | none, some doc =>
      let limit := pageLimit (count doc)
      let page : ReactionListener :=
        { Type_ := kind, CurrentPage := 1, PageLimit := limit, UserID := author, Data := doc,
          LastUsed := now }
      let textTosend := formatForMessage page
      let embed : MessageEmbed :=
        { Title := kind, Description := textTosend, Footer := some (lit "Page 1/" ++ itoa limit) }
      match sendResult with
      | .error _ =>
        { sent := [embed], page := some page, reactions := [], registered := none,
          cache := r.cache }
      | .ok id =>
        { sent := [embed], page := some page,
          reactions := [Control.leftArrow, Control.rightArrow, Control.destroyEmoji],
          registered := some (id, page), cache := r.cache }
    | _, _ =>
      { sent := [errResponse (lit "Error while getting the page for the package `" ++ pkg ++
          lit "`")],
        page := none, reactions := [], registered := none, cache := r.cache }
  -- default
  | _ =>
    { sent := [PagesShortResponse helpState pfx], page := none, reactions := [],
      registered := none, cache := StdlibCache }

/-- Go `FuncsPages`. -/
def FuncsPages := pagesCommand (lit "getfuncs") (lit "functions") (fun doc => doc.Functions.length)

/-- Go `TypesPages`. -/
def TypesPages := pagesCommand (lit "gettypes") (lit "types") (fun doc => doc.Types.length)

/-! ## Vocabulary of the properties -/

/-- Case-insensitive comparison is symmetric and transitive, as `strings.EqualFold`
is (it compares the two strings rune by rune up to simple case folding). -/
def FoldEquiv (L : Strings) : Prop :=
  (∀ a b, L.EqualFold a b = true → L.EqualFold b a = true) ∧
  (∀ a b c, L.EqualFold a b = true → L.EqualFold b c = true → L.EqualFold a c = true)

/-- The entry `fn` is a plain function whose name equals `name` case-insensitively. -/
def funcMatch (L : Strings) (name : GoString) (fn : Function) : Bool :=
  decide (fn.Type_ = FnType.FnNormal) && L.EqualFold fn.Name name

/-- The type `t` has a name equal to `name` case-insensitively. -/
def typeMatch (L : Strings) (name : GoString) (t : DocType) : Bool :=
  L.EqualFold t.Name name

/-- The entry `fn` is a method whose name equals `name` and whose owning type equals
`t`, both case-insensitively. -/
def methodMatch (L : Strings) (t name : GoString) (fn : Function) : Bool :=
  decide (fn.Type_ = FnType.FnMethod) && L.EqualFold fn.Name name && L.EqualFold fn.MethodOf t

/-- The body the trimming step produces from `body`. -/
def trimmed (notice body : GoString) : GoString :=
  if body.length > 2000 then body.take 1950 ++ notice else body

/-! ## Sample data used to evaluate the handlers -/

/-- A document without functions and without types. -/
def emptyDoc : Doc := { URL := lit "https://pkg.go.dev/empty", Functions := [], Types := [] }

/-- A cache without any key. -/
def noCache : Cache := fun _ => none

/-- A cache in which `json` is registered without a document yet. -/
def registeredCache : Cache := fun k => if k = lit "json" then some none else none

/-- A cache holding `emptyDoc` under `json`. -/
def filledCache : Cache := fun k => if k = lit "json" then some (some emptyDoc) else none

/-- A fetch collaborator that always delivers `d`. -/
def fetchOk (d : Doc) : Fetch := fun _ => (some d, none)

/-- A fetch collaborator that always fails. -/
def fetchFail : Fetch := fun _ => (none, some (lit "timeout"))

/-- A page formatter for evaluation: it shows the listener type only. -/
def plainFormat : ReactionListener → GoString := fun page => page.Type_

/-- A function entry with the given name, kind and receiver and a one-byte
signature. -/
def sampleFn (name : GoString) (kind : FnType) (recv : GoString) : Function :=
  { Name := name, Type_ := kind, MethodOf := recv, Signature := lit "f", Comments := [],
    Example := [] }

/-- A document with 25 functions and 11 types. -/
def bigDoc : Doc :=
  { URL := lit "https://pkg.go.dev/strings",
    Functions := List.replicate 25 (sampleFn (lit "Fields") FnType.FnNormal []),
    Types := List.replicate 11 { Name := lit "Builder", Signature := lit "type Builder struct",
                                  Comments := [] } }

/-- A document of package `json` with a plain function stored as `Marshal`, a plain
function `Write` and two methods `Write`, of `Encoder` and of `Decoder`. -/
def jsonDoc : Doc :=
  { URL := lit "https://pkg.go.dev/encoding/json",
    Functions :=
      [ sampleFn (lit "Marshal") FnType.FnNormal [],
        sampleFn (lit "Write") FnType.FnNormal [],
        { Name := lit "Write", Type_ := FnType.FnMethod, MethodOf := lit "Encoder",
          Signature := lit "func (e *Encoder) Write()", Comments := [lit "Write writes."],
          Example := [] },
        { Name := lit "Write", Type_ := FnType.FnMethod, MethodOf := lit "Decoder",
          Signature := lit "func (d *Decoder) Write()", Comments := [], Example := [] } ],
    Types := [ { Name := lit "Encoder", Signature := lit "type Encoder struct", Comments := [] } ] }

/-- An example text of 2000 bytes. -/
def longExample : GoString := List.replicate 2000 97

/-- A document whose only function `F` carries an example of 2000 bytes, so that its
rendered body has 2039 bytes. -/
def longDoc : Doc :=
  { URL := lit "https://pkg.go.dev/long",
    Functions := [ { Name := lit "F", Type_ := FnType.FnNormal, MethodOf := [],
                     Signature := lit "func F()", Comments := [lit "F does."],
                     Example := longExample } ],
    Types := [] }

/-- The number of characters of UTF-8 text: the bytes that do not continue a
character (Go `utf8.RuneCountInString` on valid UTF-8). -/
def runeCount (s : GoString) : Nat := s.countP (fun b => b < 128 || 192 ≤ b)

/-- The two bytes of the letter e with acute accent in UTF-8. -/
def eAcute : GoString := [195, 169]

/-- The first 957 letters of `accentExample`: 1914 bytes. -/
def accentHead : GoString := (List.replicate 957 eAcute).flatten

/-- The last 42 letters of `accentExample`: 84 bytes. -/
def accentTail : GoString := (List.replicate 42 eAcute).flatten

/-- An example text of 1000 accented letters: 1000 characters, 2000 bytes. -/
def accentExample : GoString := accentHead ++ eAcute ++ accentTail

/-- A document whose only function `F` carries the example `accentExample`, so that
its rendered body has 1039 characters and 2039 bytes. -/
def accentDoc : Doc :=
  { URL := lit "https://pkg.go.dev/long",
    Functions := [ { Name := lit "F", Type_ := FnType.FnNormal, MethodOf := [],
                     Signature := lit "func F()", Comments := [lit "F does."],
                     Example := accentExample } ],
    Types := [] }

/-! ## The cache wrapper: properties -/

/-- C3: when `pkg` has no cached document and `docs.GetDoc` fails with `e`, `getDoc`
returns no document and the error `e`, after exactly one fetch, and the cache is
unchanged. -/
theorem getDoc_fetch_failure (c : Cache) (G : Fetch) (pkg : GoString) (e : GoError)
    (hmiss : c pkg = none ∨ c pkg = some none) (hfail : (G pkg).2 = some e) :
    (getDoc c G pkg).doc = none ∧ (getDoc c G pkg).err = some e ∧
      (getDoc c G pkg).cache = c ∧ (getDoc c G pkg).fetched = [pkg] := by
  rcases hmiss with h | h <;> simp [getDoc, h, hfail]

theorem getDoc_fetch_failure_witness :
    (getDoc noCache fetchFail (lit "json")).doc = none ∧
      (getDoc noCache fetchFail (lit "json")).err = some (lit "timeout") ∧
      (getDoc noCache fetchFail (lit "json")).cache = noCache ∧
      (getDoc noCache fetchFail (lit "json")).fetched = [lit "json"] :=
  getDoc_fetch_failure noCache fetchFail (lit "json") (lit "timeout") (Or.inl rfl) rfl

/-- A cache hit: the cached document is returned, nothing is fetched and the map is
the same afterwards. -/
theorem getDoc_of_hit (c : Cache) (G : Fetch) (pkg : GoString) (d : Doc)
    (hhit : c pkg = some (some d)) :
    (getDoc c G pkg).doc = some d ∧ (getDoc c G pkg).err = none ∧
      (getDoc c G pkg).fetched = [] ∧ (getDoc c G pkg).cache = c := by
  simp [getDoc, hhit]

/-- C4: when the cache holds the document `d` under `pkg`, `getDoc` returns `d`
with no error, does not call `docs.GetDoc`, and leaves the cache unchanged. -/
theorem getDoc_cache_hit (c : Cache) (G : Fetch) (pkg : GoString) (d : Doc)
    (hhit : c pkg = some (some d)) :
    (getDoc c G pkg).doc = some d ∧ (getDoc c G pkg).err = none ∧
      (getDoc c G pkg).fetched = [] ∧ (getDoc c G pkg).cache = c :=
  getDoc_of_hit c G pkg d hhit

theorem getDoc_cache_hit_witness :
    (getDoc filledCache fetchFail (lit "json")).doc = some emptyDoc ∧
      (getDoc filledCache fetchFail (lit "json")).err = none ∧
      (getDoc filledCache fetchFail (lit "json")).fetched = [] ∧
      (getDoc filledCache fetchFail (lit "json")).cache = filledCache :=
  getDoc_cache_hit filledCache fetchFail (lit "json") emptyDoc (by decide)

/-- C2, as stated, fails: for a key absent from the cache a successful fetch is not
stored, and the next `getDoc` fetches again. -/
theorem getDoc_absent_key_not_cached :
    noCache (lit "json") = none ∧
      (getDoc noCache (fetchOk emptyDoc) (lit "json")).doc = some emptyDoc ∧
      (getDoc noCache (fetchOk emptyDoc) (lit "json")).err = none ∧
      (getDoc noCache (fetchOk emptyDoc) (lit "json")).cache (lit "json") ≠ some (some emptyDoc) ∧
      (getDoc (getDoc noCache (fetchOk emptyDoc) (lit "json")).cache (fetchOk emptyDoc)
        (lit "json")).fetched = [lit "json"] := by
  decide

/-- The fetch branch of `getDoc` for a key registered without a document. -/
theorem getDoc_of_registered (c : Cache) (G : Fetch) (pkg : GoString) (d : Doc)
    (hreg : c pkg = some none) (hfetch : G pkg = (some d, none)) :
    (getDoc c G pkg).doc = some d ∧ (getDoc c G pkg).err = none ∧
      (getDoc c G pkg).fetched = [pkg] ∧
      (getDoc c G pkg).cache = Function.update c pkg (some (some d)) := by
  simp [getDoc, hreg, hfetch]

/-- C2, amended: let `docs.GetDoc` deliver the document `d` for `pkg`.  When the key
`pkg` is registered in the cache without a document, `getDoc` returns `d`, the cache
afterwards maps `pkg` to `d` (and is otherwise unchanged), and a subsequent `getDoc`
returns `d` from the cache without calling the fetch collaborator, whatever that
collaborator would answer.  When the key `pkg` is absent from the cache, `getDoc`
returns `d` after one fetch and stores nothing. -/
theorem getDoc_registered_key_cached (c : Cache) (G G2 : Fetch) (pkg : GoString) (d : Doc)
    (hfetch : G pkg = (some d, none)) :
    (c pkg = some none →
      (getDoc c G pkg).doc = some d ∧ (getDoc c G pkg).err = none ∧
      (getDoc c G pkg).fetched = [pkg] ∧
      (getDoc c G pkg).cache pkg = some (some d) ∧
      (∀ k, k ≠ pkg → (getDoc c G pkg).cache k = c k) ∧
      (getDoc (getDoc c G pkg).cache G2 pkg).doc = some d ∧
      (getDoc (getDoc c G pkg).cache G2 pkg).err = none ∧
      (getDoc (getDoc c G pkg).cache G2 pkg).fetched = [] ∧
      (getDoc (getDoc c G pkg).cache G2 pkg).cache = (getDoc c G pkg).cache) ∧
    (c pkg = none →
      (getDoc c G pkg).doc = some d ∧ (getDoc c G pkg).err = none ∧
      (getDoc c G pkg).fetched = [pkg] ∧ (getDoc c G pkg).cache = c) := by
  constructor
  · intro hreg
    obtain ⟨hd, he, hf, h1⟩ := getDoc_of_registered c G pkg d hreg hfetch
    have h2 : (getDoc c G pkg).cache pkg = some (some d) := by simp [h1]
    have h3 := getDoc_of_hit (getDoc c G pkg).cache G2 pkg d h2
    refine ⟨hd, he, hf, h2, ?_, h3.1, h3.2.1, h3.2.2.1, h3.2.2.2⟩
    intro k hk
    simp [h1, Function.update_noteq hk]
  · intro habs
    simp [getDoc, habs, hfetch]

theorem getDoc_registered_key_cached_witness :
    (getDoc registeredCache (fetchOk emptyDoc) (lit "json")).cache (lit "json")
        = some (some emptyDoc) ∧
      (getDoc (getDoc registeredCache (fetchOk emptyDoc) (lit "json")).cache fetchFail
        (lit "json")).doc = some emptyDoc ∧
      (getDoc (getDoc registeredCache (fetchOk emptyDoc) (lit "json")).cache fetchFail
        (lit "json")).fetched = [] :=
  have h := (getDoc_registered_key_cached registeredCache (fetchOk emptyDoc) fetchFail
    (lit "json") emptyDoc rfl).1 (by decide)
  ⟨h.2.2.2.1, h.2.2.2.2.2.1, h.2.2.2.2.2.2.2.1⟩

/-! ## Pagination set-up: properties -/

/-- The page count of the model is the ceiling of the exact quotient `n / 10`. -/
theorem pageLimit_eq_ceil (n : Nat) : pageLimit n = ⌈(n : ℚ) / 10⌉₊ := by
  unfold pageLimit
  apply le_antisymm
  · have h : (n : ℚ) / 10 ≤ (⌈(n : ℚ) / 10⌉₊ : ℚ) := Nat.le_ceil _
    have h2 : (n : ℚ) ≤ ((10 * ⌈(n : ℚ) / 10⌉₊ : ℕ) : ℚ) := by
      push_cast
      linarith [(div_le_iff₀ (by norm_num : (0 : ℚ) < 10)).mp h]
    have h3 : n ≤ 10 * ⌈(n : ℚ) / 10⌉₊ := by exact_mod_cast h2
    omega
  · apply Nat.ceil_le.mpr
    have h : n ≤ 10 * ((n + 9) / 10) := by omega
    have h2 : (n : ℚ) ≤ 10 * (((n + 9) / 10 : ℕ) : ℚ) := by exact_mod_cast h
    rw [div_le_iff₀ (by norm_num : (0 : ℚ) < 10)]
    linarith

/-- The listener a pages command builds when its message has two fields and the
document is obtained. -/
theorem pagesCommand_page (helpState kind : GoString) (count : Doc → Nat) (L : Strings)
    (c : Cache) (G : Fetch) (fmt : ReactionListener → GoString) (now : Int)
    (author pfx : GoString) (sendResult : Except GoError GoString) (content cmd pkg : GoString)
    (doc : Doc) (hfields : L.Fields content = [cmd, pkg])
    (hdoc : (getDoc c G pkg).doc = some doc) (herr : (getDoc c G pkg).err = none) :
    (pagesCommand helpState kind count L c G fmt now author pfx sendResult content).page =
      some { Type_ := kind, CurrentPage := 1, PageLimit := pageLimit (count doc),
             UserID := author, Data := doc, LastUsed := now } := by
  unfold pagesCommand
  simp only [hfields, hdoc, herr]
  cases sendResult <;> rfl

/-- C1, as stated, fails: for a document without functions `FuncsPages` builds a
listener with `PageLimit` 0, not `max(1, ceil(0 / 10)) = 1`, and `CurrentPage` 1
exceeds it. -/
theorem FuncsPages_empty_pageLimit_zero :
    ∃ p : ReactionListener,
      (FuncsPages asciiStrings noCache (fetchOk emptyDoc) plainFormat 0 (lit "user1") (lit ".")
        (.ok (lit "msg1")) (lit ".getfuncs empty")).page = some p ∧
      p.Data.Functions.length = 0 ∧ p.CurrentPage = 1 ∧ p.PageLimit = 0 ∧
      p.PageLimit ≠ max 1 ⌈((p.Data.Functions.length : ℕ) : ℚ) / 10⌉₊ ∧
      ¬ (1 ≤ p.CurrentPage ∧ p.CurrentPage ≤ p.PageLimit) := by
  refine ⟨{ Type_ := lit "functions", CurrentPage := 1, PageLimit := 0, UserID := lit "user1",
            Data := emptyDoc, LastUsed := 0 }, by decide, by decide, by decide, by decide, ?_,
          by decide⟩
  simp [emptyDoc]

/-- C1, amended: when the message has two fields and the document is obtained,
`FuncsPages` and `TypesPages` build a listener with `CurrentPage` 1 and `PageLimit`
`ceil(itemCount / 10)` (0 items give 0, 10 give 1, 11 give 2, 25 give 3); whenever the
document has at least one item this is `max(1, ceil(itemCount / 10))` and
`1 <= CurrentPage <= PageLimit` holds. -/
theorem pages_pageLimit (L : Strings) (c : Cache) (G : Fetch)
    (fmt : ReactionListener → GoString) (now : Int) (author pfx : GoString)
    (sendResult : Except GoError GoString) (content cmd pkg : GoString) (doc : Doc)
    (hfields : L.Fields content = [cmd, pkg])
    (hdoc : (getDoc c G pkg).doc = some doc) (herr : (getDoc c G pkg).err = none) :
    (∃ p : ReactionListener,
      (FuncsPages L c G fmt now author pfx sendResult content).page = some p ∧
      p.Data = doc ∧ p.CurrentPage = 1 ∧
      p.PageLimit = ⌈(doc.Functions.length : ℚ) / 10⌉₊ ∧
      (doc.Functions.length ≠ 0 →
        p.PageLimit = max 1 ⌈(doc.Functions.length : ℚ) / 10⌉₊ ∧
        1 ≤ p.CurrentPage ∧ p.CurrentPage ≤ p.PageLimit)) ∧
    (∃ p : ReactionListener,
      (TypesPages L c G fmt now author pfx sendResult content).page = some p ∧
      p.Data = doc ∧ p.CurrentPage = 1 ∧
      p.PageLimit = ⌈(doc.Types.length : ℚ) / 10⌉₊ ∧
      (doc.Types.length ≠ 0 →
        p.PageLimit = max 1 ⌈(doc.Types.length : ℚ) / 10⌉₊ ∧
        1 ≤ p.CurrentPage ∧ p.CurrentPage ≤ p.PageLimit)) ∧
    pageLimit 0 = 0 ∧ pageLimit 10 = 1 ∧ pageLimit 11 = 2 ∧ pageLimit 25 = 3 := by
  have key : ∀ n : Nat, n ≠ 0 →
      pageLimit n = max 1 ⌈(n : ℚ) / 10⌉₊ ∧ 1 ≤ 1 ∧ 1 ≤ pageLimit n := by
    intro n hn
    have h1 : 1 ≤ pageLimit n := by unfold pageLimit; omega
    refine ⟨?_, le_refl 1, h1⟩
    rw [← pageLimit_eq_ceil]; omega
  refine ⟨⟨_, pagesCommand_page _ _ _ L c G fmt now author pfx sendResult content cmd pkg doc
      hfields hdoc herr, rfl, rfl, pageLimit_eq_ceil _, key _⟩,
    ⟨_, pagesCommand_page _ _ _ L c G fmt now author pfx sendResult content cmd pkg doc
      hfields hdoc herr, rfl, rfl, pageLimit_eq_ceil _, key _⟩, by decide, by decide, by decide,
    by decide⟩

theorem pages_pageLimit_witness :
    ∃ p : ReactionListener,
      (FuncsPages asciiStrings noCache (fetchOk bigDoc) plainFormat 0 (lit "user1") (lit ".")
        (.ok (lit "msg1")) (lit ".getfuncs strings")).page = some p ∧
      p.Data = bigDoc ∧ p.CurrentPage = 1 ∧
      p.PageLimit = ⌈(bigDoc.Functions.length : ℚ) / 10⌉₊ ∧
      (bigDoc.Functions.length ≠ 0 →
        p.PageLimit = max 1 ⌈(bigDoc.Functions.length : ℚ) / 10⌉₊ ∧
        1 ≤ p.CurrentPage ∧ p.CurrentPage ≤ p.PageLimit) :=
  (pages_pageLimit asciiStrings noCache (fetchOk bigDoc) plainFormat 0 (lit "user1") (lit ".")
    (.ok (lit "msg1")) (lit ".getfuncs strings") (lit ".getfuncs") (lit "strings") bigDoc
    (by decide) (by decide) (by decide)).1

/-! ## Detail renderers: properties -/

/-- The trimming step never panics: the slice `[0, 1950)` is taken only from a body
longer than 2000 bytes. -/
theorem trim_eq (notice msg : GoString) :
    trim notice msg = .ok (if msg.length > 2000 then msg.take 1950 ++ notice else msg) := by
  unfold trim sliceTo
  by_cases h : msg.length > 2000
  · have h2 : 1950 ≤ msg.length := by omega
    simp [h, h2]
  · simp [h]
    rfl

/-- A loop of the shape used by the three renderers: on a match the running name
becomes the stored name and the block of the entry is appended.  When matching
against the stored name of a match is the same as matching against the query, the
loop appends the blocks of the entries that match the query, in order, and ends
with the stored name of the last of them. -/
theorem renderLoop {α : Type} (P : α → GoString → Bool) (nm blk : α → GoString)
    (hP : ∀ y n, P y n = true → ∀ x, P x (nm y) = P x n) (xs : List α) :
    ∀ (n msg : GoString),
      xs.foldl (fun st x => if P x st.1 = true then (nm x, st.2 ++ blk x) else st) (n, msg) =
        ((((xs.filter (fun x => P x n)).getLast?).map nm).getD n,
         msg ++ ((xs.filter (fun x => P x n)).map blk).flatten) := by
  induction xs with
  | nil => intro n msg; simp
  | cons x xs ih =>
    intro n msg
    by_cases hx : P x n = true
    · have hfun : (fun z => P z (nm x)) = (fun z => P z n) := funext (hP x n hx)
      simp only [List.foldl_cons, hx, if_true, ih, hfun, List.filter_cons_of_pos, List.map_cons,
        List.flatten_cons, List.append_assoc]
      cases hl : (xs.filter (fun z => P z n)) with
      | nil => simp
      | cons z zs =>
        have hne : (z :: zs).getLast? = some ((z :: zs).getLast (List.cons_ne_nil z zs)) :=
          List.getLast?_eq_getLast _ _
        simp [hne]
    · simp [hx, ih]

/-- The ASCII string library compares case-insensitively by an equivalence. -/
theorem asciiStrings_foldEquiv : FoldEquiv asciiStrings := by
  constructor
  · intro a b h
    simp only [asciiStrings, beq_iff_eq] at h ⊢
    exact h.symm
  · intro a b c h1 h2
    simp only [asciiStrings, beq_iff_eq] at h1 h2 ⊢
    exact h1.trans h2

/-- Matching a name against the stored name of an entry that equals the query is
matching it against the query. -/
theorem equalFold_congr (L : Strings) (hL : FoldEquiv L) (a b : GoString)
    (hab : L.EqualFold a b = true) (x : GoString) : L.EqualFold x a = L.EqualFold x b := by
  rcases hL with ⟨hs, ht⟩
  cases h1 : L.EqualFold x a with
  | true => exact (ht x a b h1 hab).symm
  | false =>
    cases h2 : L.EqualFold x b with
    | false => rfl
    | true => rw [ht x b a h2 (hs a b hab)] at h1; exact h1.symm

/-- The loop of `funcResponse`: final name and body. -/
theorem funcLoop_eq (L : Strings) (hL : FoldEquiv L) (fns : List Function) (name : GoString) :
    fns.foldl (funcStep L) (name, []) =
      ((((fns.filter (funcMatch L name)).getLast?).map (fun fn => fn.Name)).getD name,
       ((fns.filter (funcMatch L name)).map funcBlock).flatten) := by
  have hstep : funcStep L = fun st x =>
      if (fun (y : Function) n => funcMatch L n y) x st.1 = true
      then (x.Name, st.2 ++ funcBlock x) else st := by
    funext st x; simp [funcStep, funcMatch]
  rw [hstep, renderLoop (fun (y : Function) n => funcMatch L n y) (fun fn => fn.Name) funcBlock]
  · simp
  · intro y n hy x
    simp only [funcMatch, Bool.and_eq_true, decide_eq_true_eq] at hy ⊢
    rw [equalFold_congr L hL y.Name n hy.2 x.Name]

/-- The loop of `typeResponse`: final name and body. -/
theorem typeLoop_eq (L : Strings) (hL : FoldEquiv L) (ts : List DocType) (name : GoString) :
    ts.foldl (typeStep L) (name, []) =
      ((((ts.filter (typeMatch L name)).getLast?).map (fun t => t.Name)).getD name,
       ((ts.filter (typeMatch L name)).map typeBlock).flatten) := by
  have hstep : typeStep L = fun st x =>
      if (fun (y : DocType) n => typeMatch L n y) x st.1 = true
      then (x.Name, st.2 ++ typeBlock x) else st := by
    funext st x; simp [typeStep, typeMatch]
  rw [hstep, renderLoop (fun (y : DocType) n => typeMatch L n y) (fun t => t.Name) typeBlock]
  · simp
  · intro y n hy x
    simp only [typeMatch] at hy ⊢
    rw [equalFold_congr L hL y.Name n hy x.Name]

/-- The loop of `methodResponse`: final name and body. -/
theorem methodLoop_eq (L : Strings) (hL : FoldEquiv L) (fns : List Function)
    (t name : GoString) :
    fns.foldl (methodStep L t) (name, []) =
      ((((fns.filter (methodMatch L t name)).getLast?).map (fun fn => fn.Name)).getD name,
       ((fns.filter (methodMatch L t name)).map methodBlock).flatten) := by
  have hstep : methodStep L t = fun st x =>
      if (fun (y : Function) n => methodMatch L t n y) x st.1 = true
      then (x.Name, st.2 ++ methodBlock x) else st := by
    funext st x; simp [methodStep, methodMatch, and_assoc]
  rw [hstep, renderLoop (fun (y : Function) n => methodMatch L t n y) (fun fn => fn.Name)
    methodBlock]
  · simp
  · intro y n hy x
    simp only [methodMatch, Bool.and_eq_true, decide_eq_true_eq] at hy ⊢
    rw [equalFold_congr L hL y.Name n hy.1.2 x.Name]

/-- Every block starts with a back quote, so it is not empty. -/
theorem funcBlock_ne_nil (fn : Function) : funcBlock fn ≠ [] := by
  simp [funcBlock, lit]

theorem typeBlock_ne_nil (t : DocType) : typeBlock t ≠ [] := by
  simp [typeBlock, lit]

theorem methodBlock_ne_nil (fn : Function) : methodBlock fn ≠ [] := by
  simp [methodBlock, lit]

/-- A concatenation of non-empty blocks is empty exactly when there is no block. -/
theorem blocks_eq_nil {α : Type} (blk : α → GoString) (hblk : ∀ x, blk x ≠ [])
    (xs : List α) : (xs.map blk).flatten = [] ↔ xs = [] := by
  cases xs with
  | nil => simp
  | cons x xs => simp [hblk x]

/-- A title that contains `": func"` or `": type"` is not the title of an error card. -/
theorem title_ne_error (pkg mid rest : GoString) (hmid : 6 ≤ mid.length) :
    pkg ++ mid ++ rest ≠ lit "Error" := by
  intro h
  have hlen := congrArg List.length h
  simp [lit] at hlen
  omega

/-- The card of `funcResponse` when the document is obtained and the loop produced
a body. -/
theorem funcResponse_of_body (L : Strings) (c : Cache) (G : Fetch) (pkg name : GoString)
    (doc : Doc) (hdoc : (getDoc c G pkg).doc = some doc) (herr : (getDoc c G pkg).err = none)
    (hbody : (doc.Functions.foldl (funcStep L) (name, [])).2 ≠ []) :
    funcResponse L c G pkg name = .ok
      { Title := pkg ++ lit ": func " ++ (doc.Functions.foldl (funcStep L) (name, [])).1,
        Description := trimmed funcNotice (doc.Functions.foldl (funcStep L) (name, [])).2,
        Footer := some (doc.URL ++ lit "#" ++ (doc.Functions.foldl (funcStep L) (name, [])).1) } := by
  have hne : doc.Functions.length ≠ 0 := by
    intro h
    rw [List.length_eq_zero.mp h] at hbody
    simp at hbody
  simp only [funcResponse, hdoc, herr, hne, hbody, trim_eq, trimmed]
  rfl

/-- The card of `typeResponse` when the document is obtained and the loop produced
a body. -/
theorem typeResponse_of_body (L : Strings) (c : Cache) (G : Fetch) (pkg name : GoString)
    (doc : Doc) (hdoc : (getDoc c G pkg).doc = some doc) (herr : (getDoc c G pkg).err = none)
    (hbody : (doc.Types.foldl (typeStep L) (name, [])).2 ≠ []) :
    typeResponse L c G pkg name = .ok
      { Title := pkg ++ lit ": type " ++ (doc.Types.foldl (typeStep L) (name, [])).1,
        Description := trimmed trimNotice (doc.Types.foldl (typeStep L) (name, [])).2,
        Footer := some (doc.URL ++ lit "#" ++ (doc.Types.foldl (typeStep L) (name, [])).1) } := by
  have hne : doc.Types.length ≠ 0 := by
    intro h
    rw [List.length_eq_zero.mp h] at hbody
    simp at hbody
  simp only [typeResponse, hdoc, herr, hne, hbody, trim_eq, trimmed]
  rfl

/-- The card of `methodResponse` when the document is obtained and the loop produced
a body. -/
theorem methodResponse_of_body (L : Strings) (c : Cache) (G : Fetch) (pkg t name : GoString)
    (doc : Doc) (hdoc : (getDoc c G pkg).doc = some doc) (herr : (getDoc c G pkg).err = none)
    (hbody : (doc.Functions.foldl (methodStep L t) (name, [])).2 ≠ []) :
    methodResponse L c G pkg t name = .ok
      { Title := pkg ++ lit ": func(" ++ t ++ lit ") " ++
          (doc.Functions.foldl (methodStep L t) (name, [])).1,
        Description := trimmed trimNotice (doc.Functions.foldl (methodStep L t) (name, [])).2,
        Footer := some (doc.URL ++ lit "#" ++
          (doc.Functions.foldl (methodStep L t) (name, [])).1) } := by
  have hne : doc.Functions.length ≠ 0 := by
    intro h
    rw [List.length_eq_zero.mp h] at hbody
    simp at hbody
  simp only [methodResponse, hdoc, herr, hne, hbody, trim_eq, trimmed]
  rfl

/-- The card of `methodResponse` when the document is obtained and the loop produced
no body: an error card. -/
theorem methodResponse_of_no_body (L : Strings) (c : Cache) (G : Fetch) (pkg t name : GoString)
    (doc : Doc) (hdoc : (getDoc c G pkg).doc = some doc) (herr : (getDoc c G pkg).err = none)
    (hbody : (doc.Functions.foldl (methodStep L t) (name, [])).2 = []) :
    ∃ d, methodResponse L c G pkg t name = .ok (errResponse d) := by
  by_cases hne : doc.Functions.length = 0
  · exact ⟨_, by simp only [methodResponse, hdoc, herr, hne]; rfl⟩
  · exact ⟨_, by simp only [methodResponse, hdoc, herr, hne, hbody]; rfl⟩

/-- The card of `methodResponse` when `getDoc` returns an error: an error card. -/
theorem methodResponse_of_err (L : Strings) (c : Cache) (G : Fetch) (pkg t name : GoString)
    (herr : (getDoc c G pkg).err ≠ none) :
    ∃ d, methodResponse L c G pkg t name = .ok (errResponse d) := by
  have h : (getDoc c G pkg).err.isSome = true := Option.isSome_iff_ne_none.mpr herr
  exact ⟨_, by simp only [methodResponse, h]; rfl⟩

/-- The length of a trimmed body. -/
theorem trimmed_length (notice body : GoString) :
    (trimmed notice body).length =
      if body.length > 2000 then 1950 + notice.length else body.length := by
  unfold trimmed
  by_cases h : body.length > 2000
  · simp [h, List.length_take]; omega
  · simp [h]

/-- C5: when the document is obtained and contains a plain function whose stored
name equals the query case-insensitively, `funcResponse` returns a card that is not
an error card and whose title is `<pkg>: func <stored name>`, the stored name being
that of a plain function of the document matching the query, not the query as
typed. -/
theorem funcResponse_case_insensitive (L : Strings) (hL : FoldEquiv L) (c : Cache) (G : Fetch)
    (pkg name : GoString) (doc : Doc)
    (hdoc : (getDoc c G pkg).doc = some doc) (herr : (getDoc c G pkg).err = none)
    (hex : ∃ fn ∈ doc.Functions, fn.Type_ = FnType.FnNormal ∧ L.EqualFold fn.Name name = true) :
    ∃ fn ∈ doc.Functions, fn.Type_ = FnType.FnNormal ∧ L.EqualFold fn.Name name = true ∧
      ∃ e, funcResponse L c G pkg name = .ok e ∧
        e.Title = pkg ++ lit ": func " ++ fn.Name ∧ e.Title ≠ lit "Error" := by
  obtain ⟨f0, hf0, hk0, he0⟩ := hex
  have hmem0 : f0 ∈ doc.Functions.filter (funcMatch L name) := by
    simp [List.mem_filter, funcMatch, hf0, hk0, he0]
  have hne : doc.Functions.filter (funcMatch L name) ≠ [] := List.ne_nil_of_mem hmem0
  have hloop := funcLoop_eq L hL doc.Functions name
  have hbody : (doc.Functions.foldl (funcStep L) (name, [])).2 ≠ [] := by
    rw [hloop]
    exact fun h => hne ((blocks_eq_nil funcBlock funcBlock_ne_nil _).mp h)
  have hlast : (doc.Functions.filter (funcMatch L name)).getLast? =
      some ((doc.Functions.filter (funcMatch L name)).getLast hne) :=
    List.getLast?_eq_getLast _ _
  have hmem := List.getLast_mem hne
  rw [List.mem_filter] at hmem
  have hm : funcMatch L name ((doc.Functions.filter (funcMatch L name)).getLast hne) = true :=
    hmem.2
  simp only [funcMatch, Bool.and_eq_true, decide_eq_true_eq] at hm
  refine ⟨_, hmem.1, hm.1, hm.2, _, funcResponse_of_body L c G pkg name doc hdoc herr hbody,
    ?_, ?_⟩
  · rw [hloop, hlast]; rfl
  · exact title_ne_error pkg (lit ": func ") _ (by decide)

theorem funcResponse_case_insensitive_witness :
    (∃ fn ∈ jsonDoc.Functions,
      fn.Type_ = FnType.FnNormal ∧ asciiStrings.EqualFold fn.Name (lit "MARSHAL") = true ∧
      ∃ e, funcResponse asciiStrings noCache (fetchOk jsonDoc) (lit "json") (lit "MARSHAL") = .ok e ∧
        e.Title = lit "json" ++ lit ": func " ++ fn.Name ∧ e.Title ≠ lit "Error") ∧
    (funcResponse asciiStrings noCache (fetchOk jsonDoc) (lit "json") (lit "MARSHAL")).map
        (fun e => e.Title) = .ok (lit "json: func Marshal") ∧
    (funcResponse asciiStrings noCache (fetchOk jsonDoc) (lit "json") (lit "marshal")).map
        (fun e => e.Title) = .ok (lit "json: func Marshal") :=
  ⟨funcResponse_case_insensitive asciiStrings asciiStrings_foldEquiv noCache (fetchOk jsonDoc)
      (lit "json") (lit "MARSHAL") jsonDoc (by decide) (by decide)
      ⟨sampleFn (lit "Marshal") FnType.FnNormal [], by decide, by decide, by decide⟩,
    by decide, by decide⟩

/-- C6, amended to byte lengths: when the document is obtained and the loop of
`funcResponse`, `typeResponse` or `methodResponse` produced a non-empty body, the
description of the returned card is the body unchanged if the body has at most 2000
bytes, and otherwise the first
1950 bytes of the body (a slice that is in range) followed by the notice of that
renderer, 1950 bytes plus the length of the notice in total: 2013 bytes for
`funcResponse`, 2012 for the other two. -/
theorem description_trimmed (L : Strings) (c : Cache) (G : Fetch) (pkg t name : GoString)
    (doc : Doc) (hdoc : (getDoc c G pkg).doc = some doc) (herr : (getDoc c G pkg).err = none) :
    (∀ body, body = (doc.Functions.foldl (funcStep L) (name, [])).2 → body ≠ [] →
      ∃ e, funcResponse L c G pkg name = .ok e ∧
        (body.length ≤ 2000 → e.Description = body) ∧
        (2000 < body.length →
          sliceTo body 1950 = .ok (body.take 1950) ∧ (body.take 1950).length = 1950 ∧
          e.Description = body.take 1950 ++ funcNotice ∧
          e.Description.length = 1950 + funcNotice.length ∧ e.Description.length = 2013)) ∧
    (∀ body, body = (doc.Types.foldl (typeStep L) (name, [])).2 → body ≠ [] →
      ∃ e, typeResponse L c G pkg name = .ok e ∧
        (body.length ≤ 2000 → e.Description = body) ∧
        (2000 < body.length →
          sliceTo body 1950 = .ok (body.take 1950) ∧ (body.take 1950).length = 1950 ∧
          e.Description = body.take 1950 ++ trimNotice ∧
          e.Description.length = 1950 + trimNotice.length ∧ e.Description.length = 2012)) ∧
    (∀ body, body = (doc.Functions.foldl (methodStep L t) (name, [])).2 → body ≠ [] →
      ∃ e, methodResponse L c G pkg t name = .ok e ∧
        (body.length ≤ 2000 → e.Description = body) ∧
        (2000 < body.length →
          sliceTo body 1950 = .ok (body.take 1950) ∧ (body.take 1950).length = 1950 ∧
          e.Description = body.take 1950 ++ trimNotice ∧
          e.Description.length = 1950 + trimNotice.length ∧ e.Description.length = 2012)) := by
  have hf : funcNotice.length = 63 := by decide
  have ht : trimNotice.length = 62 := by decide
  have key : ∀ (notice body : GoString),
      (body.length ≤ 2000 → trimmed notice body = body) ∧
      (2000 < body.length →
        sliceTo body 1950 = .ok (body.take 1950) ∧ (body.take 1950).length = 1950 ∧
        trimmed notice body = body.take 1950 ++ notice ∧
        (trimmed notice body).length = 1950 + notice.length) := by
    intro notice body
    constructor
    · intro h
      have : ¬ body.length > 2000 := by omega
      simp [trimmed, this]
    · intro h
      have h2 : 1950 ≤ body.length := by omega
      refine ⟨by simp [sliceTo, h2], by simp [List.length_take]; omega, by simp [trimmed, h], ?_⟩
      rw [trimmed_length]; simp [h]
  refine ⟨?_, ?_, ?_⟩
  · intro body hb hne
    subst hb
    refine ⟨_, funcResponse_of_body L c G pkg name doc hdoc herr hne, (key _ _).1, ?_⟩
    intro h
    obtain ⟨h1, h2, h3, h4⟩ := (key funcNotice _).2 h
    exact ⟨h1, h2, h3, h4, by rw [h4, hf]⟩
  · intro body hb hne
    subst hb
    refine ⟨_, typeResponse_of_body L c G pkg name doc hdoc herr hne, (key _ _).1, ?_⟩
    intro h
    obtain ⟨h1, h2, h3, h4⟩ := (key trimNotice _).2 h
    exact ⟨h1, h2, h3, h4, by rw [h4, ht]⟩
  · intro body hb hne
    subst hb
    refine ⟨_, methodResponse_of_body L c G pkg t name doc hdoc herr hne, (key _ _).1, ?_⟩
    intro h
    obtain ⟨h1, h2, h3, h4⟩ := (key trimNotice _).2 h
    exact ⟨h1, h2, h3, h4, by rw [h4, ht]⟩

/-- The example of `longDoc` is not empty. -/
theorem longExample_ne_nil : longExample ≠ [] := by
  intro h
  have hl : longExample.length = 2000 := List.length_replicate _ _
  rw [h] at hl
  cases hl

/-- The body `funcResponse` renders for the query `f` on `longDoc`, and its length. -/
theorem longDoc_body :
    (longDoc.Functions.foldl (funcStep asciiStrings) (lit "f", [])).2 =
        lit "`func F()`\nF does.\n\nExample:\n```go\n" ++ longExample ++ lit "\n```" ∧
      (longDoc.Functions.foldl (funcStep asciiStrings) (lit "f", [])).2.length = 2039 := by
  have h : (longDoc.Functions.foldl (funcStep asciiStrings) (lit "f", [])).2 =
      lit "`func F()`\nF does.\n\nExample:\n```go\n" ++ longExample ++ lit "\n```" := by
    have hm : asciiStrings.EqualFold (lit "F") (lit "f") = true := by decide
    have hl : lit "`" ++ (lit "func F()" ++ (lit "`" ++ (lit "\n" ++ (lit "F does." ++
        (lit "\n\nExample:\n```go\n" ++ (longExample ++ lit "\n```")))))) =
        lit "`func F()`\nF does.\n\nExample:\n```go\n" ++ (longExample ++ lit "\n```") := by
      rfl
    simp only [longDoc, List.foldl_cons, List.foldl_nil, funcStep, funcBlock, hm, and_self,
      if_true, List.nil_append, List.append_assoc, ne_eq, longExample_ne_nil, not_false_eq_true]
    exact hl
  refine ⟨h, ?_⟩
  rw [h]
  have h1 : (lit "`func F()`\nF does.\n\nExample:\n```go\n").length = 35 := by decide
  have h2 : (lit "\n```").length = 4 := by decide
  have h3 : longExample.length = 2000 := List.length_replicate _ _
  simp only [List.length_append, h1, h2, h3]

theorem description_trimmed_witness :
    ∃ e, funcResponse asciiStrings noCache (fetchOk longDoc) (lit "long") (lit "f") = .ok e ∧
      e.Description =
        (lit "`func F()`\nF does.\n\nExample:\n```go\n" ++ longExample ++ lit "\n```").take 1950 ++
          funcNotice :=
  have h := (description_trimmed asciiStrings noCache (fetchOk longDoc) (lit "long") []
    (lit "f") longDoc rfl rfl).1 _ rfl
    (fun h0 => by have h1 := longDoc_body.2; rw [h0] at h1; simp at h1)
  match h with
  | ⟨e, he, _, hlong⟩ =>
    ⟨e, he, by
      have h2 := (hlong (by rw [longDoc_body.2]; decide)).2.2.1
      rw [longDoc_body.1] at h2
      exact h2⟩

/-- Length and character count of a run of accented letters. -/
theorem eAcute_run (n : Nat) :
    ((List.replicate n eAcute).flatten).length = 2 * n ∧
      runeCount ((List.replicate n eAcute).flatten) = n := by
  induction n with
  | zero => exact ⟨rfl, rfl⟩
  | succ n ih =>
    have h1 : eAcute.length = 2 := rfl
    have h2 : runeCount eAcute = 1 := by decide
    unfold runeCount at ih h2 ⊢
    rw [List.replicate_succ, List.flatten_cons, List.length_append, List.countP_append, ih.1,
      ih.2, h1, h2]
    constructor <;> omega

/-- The body `funcResponse` renders for the query `f` on `accentDoc`: 2039 bytes,
1039 characters, and byte 1950 is the first byte of a two-byte letter. -/
theorem accentDoc_body :
    (accentDoc.Functions.foldl (funcStep asciiStrings) (lit "f", [])).2 =
        lit "`func F()`\nF does.\n\nExample:\n```go\n" ++ accentExample ++ lit "\n```" ∧
      (accentDoc.Functions.foldl (funcStep asciiStrings) (lit "f", [])).2.length = 2039 ∧
      runeCount (accentDoc.Functions.foldl (funcStep asciiStrings) (lit "f", [])).2 = 1039 ∧
      (accentDoc.Functions.foldl (funcStep asciiStrings) (lit "f", [])).2.take 1950 =
        lit "`func F()`\nF does.\n\nExample:\n```go\n" ++ accentHead ++ [195] := by
  have hlenH : accentHead.length = 1914 := (eAcute_run 957).1
  have hlenT : accentTail.length = 84 := (eAcute_run 42).1
  have hrcH : runeCount accentHead = 957 := (eAcute_run 957).2
  have hrcT : runeCount accentTail = 42 := (eAcute_run 42).2
  have hne : accentExample ≠ [] := by
    intro h0
    have hl := congrArg List.length h0
    simp only [accentExample, List.length_append, hlenH, hlenT, List.length_nil] at hl
    omega
  have h1 : (lit "`func F()`\nF does.\n\nExample:\n```go\n").length = 35 := by decide
  have h2 : (lit "\n```").length = 4 := by decide
  have r1 : runeCount (lit "`func F()`\nF does.\n\nExample:\n```go\n") = 35 := by decide
  have r2 : runeCount (lit "\n```") = 4 := by decide
  have r3 : runeCount eAcute = 1 := by decide
  have h3 : eAcute.length = 2 := rfl
  have h : (accentDoc.Functions.foldl (funcStep asciiStrings) (lit "f", [])).2 =
      lit "`func F()`\nF does.\n\nExample:\n```go\n" ++ accentExample ++ lit "\n```" := by
    have hm : asciiStrings.EqualFold (lit "F") (lit "f") = true := by decide
    have hl : lit "`" ++ (lit "func F()" ++ (lit "`" ++ (lit "\n" ++ (lit "F does." ++
        (lit "\n\nExample:\n```go\n" ++ (accentExample ++ lit "\n```")))))) =
        lit "`func F()`\nF does.\n\nExample:\n```go\n" ++ (accentExample ++ lit "\n```") := by
      rfl
    simp only [accentDoc, List.foldl_cons, List.foldl_nil, funcStep, funcBlock, hm, and_self,
      if_true, List.nil_append, List.append_assoc, ne_eq, hne, not_false_eq_true]
    exact hl
  refine ⟨h, ?_, ?_, ?_⟩
  · rw [h]
    simp only [accentExample, List.length_append, h1, h2, h3, hlenH, hlenT]
  · rw [h]
    unfold runeCount at r1 r2 r3 hrcH hrcT ⊢
    simp only [accentExample, List.countP_append, r1, r2, r3, hrcH, hrcT]
  · rw [h]
    have hsplit : lit "`func F()`\nF does.\n\nExample:\n```go\n" ++ accentExample ++ lit "\n```" =
        (lit "`func F()`\nF does.\n\nExample:\n```go\n" ++ accentHead ++ [195]) ++
          ([169] ++ accentTail ++ lit "\n```") := by
      simp only [accentExample, eAcute, List.append_assoc, List.cons_append, List.nil_append]
    rw [hsplit]
    apply List.take_left'
    simp only [List.length_append, h1, hlenH, List.length_singleton]

/-- C6, as stated in characters, fails: on `accentDoc` the rendered body has 1039
characters, well under 2000, yet the description is not the body unchanged: the
body has 2039 bytes, so it is cut after byte 1950, which is the first byte of a
two-byte letter, and the notice is appended. -/
theorem funcResponse_trims_by_bytes :
    ∃ body e,
      body = (accentDoc.Functions.foldl (funcStep asciiStrings) (lit "f", [])).2 ∧
      funcResponse asciiStrings noCache (fetchOk accentDoc) (lit "long") (lit "f") = .ok e ∧
      runeCount body = 1039 ∧ runeCount body ≤ 2000 ∧
      e.Description ≠ body ∧
      e.Description = body.take 1950 ++ funcNotice ∧
      (body.take 1950).getLast? = some 195 ∧
      runeCount (body.take 1950) ≠ 1950 := by
  obtain ⟨hb, hlen, hrc, htake⟩ := accentDoc_body
  have hne : (accentDoc.Functions.foldl (funcStep asciiStrings) (lit "f", [])).2 ≠ [] := by
    intro h0
    rw [h0] at hlen
    cases hlen
  have hdesc : trimmed funcNotice
      (accentDoc.Functions.foldl (funcStep asciiStrings) (lit "f", [])).2 =
      (accentDoc.Functions.foldl (funcStep asciiStrings) (lit "f", [])).2.take 1950 ++
        funcNotice := by
    unfold trimmed
    rw [if_pos (by rw [hlen]; decide)]
  have hdlen : (trimmed funcNotice
      (accentDoc.Functions.foldl (funcStep asciiStrings) (lit "f", [])).2).length = 2013 := by
    rw [trimmed_length, hlen]
    decide
  refine ⟨_, _, rfl, funcResponse_of_body asciiStrings noCache (fetchOk accentDoc) (lit "long")
    (lit "f") accentDoc rfl rfl hne, hrc, by rw [hrc]; decide, ?_, ?_, ?_, ?_⟩
  · dsimp only
    intro h0
    have hl := congrArg List.length h0
    rw [hdlen, hlen] at hl
    cases hl
  · dsimp only
    exact hdesc
  · rw [htake, List.getLast?_append]
    rfl
  · rw [htake]
    have r1 : runeCount (lit "`func F()`\nF does.\n\nExample:\n```go\n") = 35 := by decide
    have hrcH : runeCount accentHead = 957 := (eAcute_run 957).2
    have r4 : runeCount [195] = 1 := by decide
    unfold runeCount at r1 hrcH r4 ⊢
    simp only [List.countP_append, r1, hrcH, r4]
    decide

/-- C7, evaluated at a failing input: for a function whose rendered body has 2039
bytes, the description returned by `funcResponse` has 2013 bytes, which is more than
the 2000 the body was trimmed for. -/
theorem funcResponse_description_over_budget :
    ∃ e, funcResponse asciiStrings noCache (fetchOk longDoc) (lit "long") (lit "f") = .ok e ∧
      e.Description.length = 2013 ∧ ¬ e.Description.length ≤ 2000 := by
  have hne : (longDoc.Functions.foldl (funcStep asciiStrings) (lit "f", [])).2 ≠ [] := by
    intro h0
    have h1 := longDoc_body.2
    rw [h0] at h1
    simp at h1
  have hlen : (trimmed funcNotice
      (longDoc.Functions.foldl (funcStep asciiStrings) (lit "f", [])).2).length = 2013 := by
    rw [trimmed_length, longDoc_body.2]
    decide
  refine ⟨_, funcResponse_of_body asciiStrings noCache (fetchOk longDoc) (lit "long") (lit "f")
    longDoc rfl rfl hne, ?_, ?_⟩
  · dsimp only
    exact hlen
  · dsimp only
    rw [hlen]
    decide

/-- C8: for the method query `t.name`, the body built by the loop of `methodResponse`
is the concatenation, in document order, of the rendered blocks of exactly the
entries that are methods, whose name equals `name` and whose owning type equals `t`,
both case-insensitively; plain functions and methods of other types contribute
nothing.  The block of an entry is its signature between back quotes, then a line
break and its first comment line, or the placeholder `*no info*` when it has no
comment, then, only when its example is not empty, the example in a fenced block
introduced by `Example:`.  When `getDoc` returns an error the card is an error card;
when the document is obtained the card is an error card if and only if no entry
matches, and otherwise it carries the trimmed body. -/
theorem methodResponse_body (L : Strings) (hL : FoldEquiv L) (c : Cache) (G : Fetch)
    (pkg t name : GoString) :
    ((getDoc c G pkg).err ≠ none →
      ∃ e, methodResponse L c G pkg t name = .ok e ∧ e.Title = lit "Error") ∧
    (∀ doc, (getDoc c G pkg).doc = some doc → (getDoc c G pkg).err = none →
      (doc.Functions.foldl (methodStep L t) (name, [])).2 =
        ((doc.Functions.filter (fun fn =>
            decide (fn.Type_ = FnType.FnMethod) && L.EqualFold fn.Name name &&
              L.EqualFold fn.MethodOf t)).map
          (fun fn =>
            (lit "`" ++ fn.Signature ++ lit "`") ++
            (match fn.Comments with
              | c :: _ => lit "\n" ++ c
              | [] => lit "\n*no info*") ++
            (if fn.Example ≠ [] then lit "\nExample:\n```\n" ++ fn.Example ++ lit "\n```"
              else []))).flatten ∧
      (∃ e, methodResponse L c G pkg t name = .ok e ∧
        (e.Title = lit "Error" ↔
          doc.Functions.filter (fun fn =>
            decide (fn.Type_ = FnType.FnMethod) && L.EqualFold fn.Name name &&
              L.EqualFold fn.MethodOf t) = []) ∧
        (doc.Functions.filter (fun fn =>
            decide (fn.Type_ = FnType.FnMethod) && L.EqualFold fn.Name name &&
              L.EqualFold fn.MethodOf t) ≠ [] →
          e.Description = trimmed trimNotice
            ((doc.Functions.filter (fun fn =>
                decide (fn.Type_ = FnType.FnMethod) && L.EqualFold fn.Name name &&
                  L.EqualFold fn.MethodOf t)).map
              (fun fn =>
                (lit "`" ++ fn.Signature ++ lit "`") ++
                (match fn.Comments with
                  | c :: _ => lit "\n" ++ c
                  | [] => lit "\n*no info*") ++
                (if fn.Example ≠ [] then lit "\nExample:\n```\n" ++ fn.Example ++ lit "\n```"
                  else []))).flatten))) := by
  have hblk : (fun fn =>
            (lit "`" ++ fn.Signature ++ lit "`") ++
            (match fn.Comments with
              | c :: _ => lit "\n" ++ c
              | [] => lit "\n*no info*") ++
            (if fn.Example ≠ [] then lit "\nExample:\n```\n" ++ fn.Example ++ lit "\n```"
              else [])) = methodBlock := rfl
  have hmatch : (fun (fn : Function) =>
      decide (fn.Type_ = FnType.FnMethod) && L.EqualFold fn.Name name &&
        L.EqualFold fn.MethodOf t) = methodMatch L t name := rfl
  rw [hblk, hmatch]
  constructor
  · intro herr
    obtain ⟨d, hd⟩ := methodResponse_of_err L c G pkg t name herr
    exact ⟨_, hd, rfl⟩
  · intro doc hdoc herr
    have hloop := methodLoop_eq L hL doc.Functions t name
    have hbody : (doc.Functions.foldl (methodStep L t) (name, [])).2 =
        ((doc.Functions.filter (methodMatch L t name)).map methodBlock).flatten := by
      rw [hloop]
    refine ⟨hbody, ?_⟩
    by_cases hm : doc.Functions.filter (methodMatch L t name) = []
    · have h0 : (doc.Functions.foldl (methodStep L t) (name, [])).2 = [] := by
        rw [hbody, hm]; rfl
      obtain ⟨d, hd⟩ := methodResponse_of_no_body L c G pkg t name doc hdoc herr h0
      exact ⟨_, hd, ⟨fun _ => hm, fun _ => rfl⟩, fun h => absurd hm h⟩
    · have h0 : (doc.Functions.foldl (methodStep L t) (name, [])).2 ≠ [] := by
        rw [hbody]
        exact fun h => hm ((blocks_eq_nil methodBlock methodBlock_ne_nil _).mp h)
      refine ⟨_, methodResponse_of_body L c G pkg t name doc hdoc herr h0, ⟨?_, ?_⟩, ?_⟩
      · intro h
        have hlen := congrArg List.length h
        simp [lit] at hlen
        omega
      · intro h; exact absurd h hm
      · intro _
        show trimmed trimNotice (doc.Functions.foldl (methodStep L t) (name, [])).2 = _
        rw [hbody]

theorem methodResponse_body_witness :
    (jsonDoc.Functions.foldl (methodStep asciiStrings (lit "encoder")) (lit "WRITE", [])).2 =
        lit "`func (e *Encoder) Write()`\nWrite writes." ∧
      (jsonDoc.Functions.foldl (methodStep asciiStrings (lit "DECODER")) (lit "write", [])).2 =
        lit "`func (d *Decoder) Write()`\n*no info*" ∧
      (methodResponse asciiStrings noCache (fetchOk jsonDoc) (lit "json") (lit "encoder")
        (lit "WRITE")).map (fun e => e.Title) = .ok (lit "json: func(encoder) Write") :=
  have h := ((methodResponse_body asciiStrings asciiStrings_foldEquiv noCache (fetchOk jsonDoc)
    (lit "json") (lit "encoder") (lit "WRITE")).2 jsonDoc (by decide) (by decide)).1
  have h2 := ((methodResponse_body asciiStrings asciiStrings_foldEquiv noCache (fetchOk jsonDoc)
    (lit "json") (lit "DECODER") (lit "write")).2 jsonDoc (by decide) (by decide)).1
  ⟨h.trans (by decide), h2.trans (by decide), by decide⟩

/-! ## Argument dispatch: properties -/

/-- Splitting always yields at least one piece. -/
theorem Split_ne_nil (s : GoString) (sep : UInt8) : Split s sep ≠ [] := by
  cases s with
  | nil => simp [Split]
  | cons c cs =>
    unfold Split
    split
    · simp
    · split <;> simp

/-- The loop of Go's `strings.Split`: the first piece is the text before the first
separator, and the remaining pieces are those of the text after it. -/
theorem Split_eq (sep : UInt8) (s : GoString) :
    Split s sep = s.takeWhile (fun b => b ≠ sep) ::
      (match s.dropWhile (fun b => b ≠ sep) with
        | [] => []
        | _ :: rest => Split rest sep) := by
  induction s with
  | nil => simp [Split]
  | cons c cs ih =>
    by_cases hc : c = sep
    · simp [Split, hc]
    · have hne := Split_ne_nil cs sep
      rw [Split]
      simp only [hc, if_false]
      rw [ih] 
      simp [List.takeWhile_cons, List.dropWhile_cons, hc]

/-- A string that contains the separator splits into at least two pieces: the text
before the first separator, then the text between the first and the second. -/
theorem Split_of_contains (sep : UInt8) (s : GoString) (h : Contains s sep = true) :
    ∃ rest, Split s sep =
      s.takeWhile (fun b => b ≠ sep) ::
        ((s.dropWhile (fun b => b ≠ sep)).drop 1).takeWhile (fun b => b ≠ sep) :: rest := by
  have hmem : sep ∈ s := by simpa [Contains] using h
  have hdrop : s.dropWhile (fun b => b ≠ sep) ≠ [] := by
    intro h0
    rw [List.dropWhile_eq_nil_iff] at h0
    have := h0 sep hmem
    simp at this
  rw [Split_eq sep s]
  cases hd : s.dropWhile (fun b => b ≠ sep) with
  | nil => exact absurd hd hdrop
  | cons x rest =>
    simp only [List.drop_one, List.tail_cons]
    rw [Split_eq sep rest]
    exact ⟨_, rfl⟩

/-- The only panic `funcResponse` can raise is the nil dereference of a `nil`
document returned without error. -/
theorem funcResponse_panic (L : Strings) (c : Cache) (G : Fetch) (pkg name : GoString)
    (p : Panic) (h : funcResponse L c G pkg name = .error p) : p = Panic.nilDereference := by
  unfold funcResponse at h
  simp only [trim_eq] at h
  repeat' split at h
  all_goals first
    | cases h; rfl
    | cases h

theorem typeResponse_panic (L : Strings) (c : Cache) (G : Fetch) (pkg name : GoString)
    (p : Panic) (h : typeResponse L c G pkg name = .error p) : p = Panic.nilDereference := by
  unfold typeResponse at h
  simp only [trim_eq] at h
  repeat' split at h
  all_goals first
    | cases h; rfl
    | cases h

theorem methodResponse_panic (L : Strings) (c : Cache) (G : Fetch) (pkg t name : GoString)
    (p : Panic) (h : methodResponse L c G pkg t name = .error p) : p = Panic.nilDereference := by
  unfold methodResponse at h
  simp only [trim_eq] at h
  repeat' split at h
  all_goals first
    | cases h; rfl
    | cases h

theorem pkgResponse_panic (c : Cache) (G : Fetch) (pkg : GoString)
    (p : Panic) (h : pkgResponse c G pkg = .error p) : p = Panic.nilDereference := by
  unfold pkgResponse at h
  by_cases he : (getDoc c G pkg).err.isSome = true
  · simp [he] at h
  · cases hd : (getDoc c G pkg).doc with
    | none => simp [he, hd] at h; exact h.symm
    | some d => simp [he, hd] at h

/-- The method branch of `HandleDoc` finds both `split[0]` and `split[1]` whenever
the argument contains a dot and `fields[1]` exists. -/
theorem methodBranch_panic (L : Strings) (c : Cache) (G : Fetch) (fields : List GoString)
    (arg : GoString) (hlen : 2 ≤ fields.length) (hdot : Contains arg dot = true)
    (p : Panic) (h : methodBranch L c G fields arg = .error p) : p = Panic.nilDereference := by
  obtain ⟨rest, hs⟩ := Split_of_contains dot arg hdot
  match fields, hlen with
  | a :: b :: more, _ =>
    unfold methodBranch at h
    simp only [hs, index, List.get?_cons_succ, List.get?_cons_zero] at h
    exact methodResponse_panic L c G _ _ _ p h

/-- Binding a fallible computation that can only panic with a nil dereference. -/
theorem bind_panic {α β : Type} (x : Except Panic α) (f : α → Except Panic β)
    (hx : ∀ p, x = .error p → p = Panic.nilDereference)
    (hf : ∀ a p, f a = .error p → p = Panic.nilDereference)
    (p : Panic) (h : (x >>= f) = .error p) : p = Panic.nilDereference := by
  cases x with
  | error q =>
    have hq := hx q rfl
    cases h
    exact hq
  | ok a => exact hf a p h

/-- Binding a computation that succeeded. -/
theorem ok_bind {α β : Type} (a : α) (f : α → Except Panic β) :
    ((Except.ok a : Except Panic α) >>= f) = f a := rfl

/-- The only panic `HandleDoc` can raise is the nil dereference of a `nil` document
returned without error; in particular no index is out of range. -/
theorem HandleDoc_panic (L : Strings) (c : Cache) (G : Fetch) (content : GoString)
    (p : Panic) (h : HandleDoc L c G content = .error p) : p = Panic.nilDereference := by
  unfold HandleDoc at h
  generalize L.Fields content = fields at h
  rcases fields with _ | ⟨a, _ | ⟨b, _ | ⟨k, _ | ⟨d, _ | ⟨e, more⟩⟩⟩⟩⟩
  · cases h
  · cases h
  · simp only [List.length, index, List.get?_cons_succ, List.get?_cons_zero, ok_bind] at h
    refine bind_panic _ _ (fun q hq => pkgResponse_panic c G b q hq) ?_ p h
    intro x q hq; cases hq
  · simp only [List.length, index, List.get?_cons_succ, List.get?_cons_zero, ok_bind] at h
    by_cases hdot : Contains k dot = true
    · simp only [hdot, if_true] at h
      refine bind_panic _ _
        (fun q hq => methodBranch_panic L c G [a, b, k] k (by simp) hdot q hq) ?_ p h
      intro x q hq; cases hq
    · simp only [hdot] at h
      refine bind_panic _ _ (fun q hq => funcResponse_panic L c G b k q hq) ?_ p h
      intro x q hq; cases hq
  · simp only [List.length, index, List.get?_cons_succ, List.get?_cons_zero, ok_bind] at h
    by_cases hf : L.ToLower k = lit "func" ∨ L.ToLower k = lit "function" ∨ L.ToLower k = lit "fn"
    · by_cases hdot : Contains d dot = true
      · simp only [hf, hdot, if_true] at h
        refine bind_panic _ _
          (fun q hq => methodBranch_panic L c G [a, b, k, d] d (by simp) hdot q hq) ?_ p h
        intro x q hq; cases hq
      · simp only [hf, hdot, if_true] at h
        refine bind_panic _ _ (fun q hq => funcResponse_panic L c G b d q hq) ?_ p h
        intro x q hq; cases hq
    · by_cases ht : L.ToLower k = lit "type"
      · simp only [hf, ht, if_true, if_false] at h
        refine bind_panic _ _ (fun q hq => typeResponse_panic L c G b d q hq) ?_ p h
        intro x q hq; cases hq
      · simp only [hf, ht, if_false] at h
        cases h
  · cases h

/-- C10: `HandleDoc` never indexes out of range, whatever the message content and
whatever fields `strings.Fields` yields.  In the 3-field form with a dotted name the
handler calls `methodResponse` with the text before the first dot as owning type and
the text between the first and the second dot as method name; a name that contains
a dot always splits into at least two pieces (also `.`, `a.`, `.b` and `a.b.c`), so
`split[0]` and `split[1]` exist. -/
theorem HandleDoc_index_safe (L : Strings) (c : Cache) (G : Fetch) (content : GoString) :
    HandleDoc L c G content ≠ .error Panic.indexOutOfRange ∧
    (∀ a b k, L.Fields content = [a, b, k] → Contains k dot = true →
      HandleDoc L c G content =
        (methodResponse L c G b (k.takeWhile (fun x => x ≠ dot))
          (((k.dropWhile (fun x => x ≠ dot)).drop 1).takeWhile (fun x => x ≠ dot))).map some) ∧
    (∀ s, Contains s dot = true →
      ∃ rest, Split s dot = s.takeWhile (fun x => x ≠ dot) ::
          ((s.dropWhile (fun x => x ≠ dot)).drop 1).takeWhile (fun x => x ≠ dot) :: rest ∧
        index (Split s dot) 0 = .ok (s.takeWhile (fun x => x ≠ dot)) ∧
        index (Split s dot) 1 =
          .ok (((s.dropWhile (fun x => x ≠ dot)).drop 1).takeWhile (fun x => x ≠ dot))) ∧
    Split (lit ".") dot = [[], []] ∧ Split (lit "a.") dot = [lit "a", []] ∧
    Split (lit ".b") dot = [[], lit "b"] ∧
    Split (lit "a.b.c") dot = [lit "a", lit "b", lit "c"] := by
  refine ⟨?_, ?_, ?_, by decide, by decide, by decide, by decide⟩
  · intro h
    have := HandleDoc_panic L c G content _ h
    cases this
  · intro a b k hfields hdot
    obtain ⟨rest, hs⟩ := Split_of_contains dot k hdot
    unfold HandleDoc
    simp only [hfields, List.length, index, List.get?_cons_succ, List.get?_cons_zero, ok_bind,
      hdot, if_true, methodBranch, hs]
    cases methodResponse L c G b (k.takeWhile (fun x => x ≠ dot))
      (((k.dropWhile (fun x => x ≠ dot)).drop 1).takeWhile (fun x => x ≠ dot)) <;> rfl
  · intro s hdot
    obtain ⟨rest, hs⟩ := Split_of_contains dot s hdot
    exact ⟨rest, hs, by simp [hs, index], by simp [hs, index]⟩

theorem HandleDoc_index_safe_witness :
    HandleDoc asciiStrings noCache (fetchOk jsonDoc) (lit ".d json encoder.WRITE.x") =
      (methodResponse asciiStrings noCache (fetchOk jsonDoc) (lit "json")
        ((lit "encoder.WRITE.x").takeWhile (fun x => x ≠ dot))
        ((((lit "encoder.WRITE.x").dropWhile (fun x => x ≠ dot)).drop 1).takeWhile
          (fun x => x ≠ dot))).map some :=
  (HandleDoc_index_safe asciiStrings noCache (fetchOk jsonDoc)
    (lit ".d json encoder.WRITE.x")).2.1 (lit ".d") (lit "json") (lit "encoder.WRITE.x")
    (by decide) (by decide)

/-- C9, as stated, fails for the pages commands: a `FuncsPages` message with three
fields is answered with the help card, whose title is `Help getfuncs`, not `Error`. -/
theorem FuncsPages_too_many_fields_help_card :
    (asciiStrings.Fields (lit ".getfuncs json extra")).length = 3 ∧
      (FuncsPages asciiStrings noCache (fetchOk jsonDoc) plainFormat 0 (lit "user1") (lit ".")
        (.ok (lit "msg1")) (lit ".getfuncs json extra")).sent =
          [PagesShortResponse (lit "getfuncs") (lit ".")] ∧
      (PagesShortResponse (lit "getfuncs") (lit ".")).Title = lit "Help getfuncs" ∧
      (PagesShortResponse (lit "getfuncs") (lit ".")).Title ≠ lit "Error" := by
  decide

/-- What a pages command sends for a field count other than 2. -/
theorem pagesCommand_sent (helpState kind : GoString) (count : Doc → Nat) (L : Strings)
    (c : Cache) (G : Fetch) (fmt : ReactionListener → GoString) (now : Int)
    (author pfx : GoString) (sendResult : Except GoError GoString) (content : GoString) :
    ((L.Fields content).length = 0 →
      (pagesCommand helpState kind count L c G fmt now author pfx sendResult content).sent = []) ∧
    ((L.Fields content).length = 1 ∨ 2 < (L.Fields content).length →
      (pagesCommand helpState kind count L c G fmt now author pfx sendResult content).sent =
        [PagesShortResponse helpState pfx]) := by
  unfold pagesCommand
  generalize L.Fields content = fields
  rcases fields with _ | ⟨a, _ | ⟨b, _ | ⟨k, more⟩⟩⟩
  · simp
  · simp
  · simp
  · simp

/-- C9, amended: `HandleDoc` answers a message of more than 4 fields, and a 4-field
message whose search type is none of `func`, `function`, `fn`, `type` (after
lower-casing), with a card whose title is `Error` and whose description is the text
of the violated constraint.  `FuncsPages` and `TypesPages` answer a message of
exactly 1 field or of more than 2 fields with their help card, titled
`Help getfuncs` / `Help gettypes`, and send nothing for a message without fields. -/
theorem argument_errors (L : Strings) (c : Cache) (G : Fetch)
    (fmt : ReactionListener → GoString) (now : Int) (author pfx : GoString)
    (sendResult : Except GoError GoString) (content : GoString) :
    (4 < (L.Fields content).length →
      ∃ e, HandleDoc L c G content = .ok (some e) ∧ e.Title = lit "Error" ∧
        e.Description = lit "Too many arguments.") ∧
    (∀ a b k d, L.Fields content = [a, b, k, d] →
      L.ToLower k ≠ lit "func" → L.ToLower k ≠ lit "function" → L.ToLower k ≠ lit "fn" →
      L.ToLower k ≠ lit "type" →
      ∃ e, HandleDoc L c G content = .ok (some e) ∧ e.Title = lit "Error" ∧
        e.Description = lit "Unsupported search type " ++ L.Quote k ++
          lit "\nValid options are:\n\t`func`\n\t`type`") ∧
    ((L.Fields content).length = 1 ∨ 2 < (L.Fields content).length →
      (FuncsPages L c G fmt now author pfx sendResult content).sent =
        [{ Title := lit "Help getfuncs",
           Description := lit "It seems you didn't have enough arguments, so here's an example!\n\n"
             ++ pfx ++ lit "getfuncs" ++ lit " strings",
           Footer := none }] ∧
      (TypesPages L c G fmt now author pfx sendResult content).sent =
        [{ Title := lit "Help gettypes",
           Description := lit "It seems you didn't have enough arguments, so here's an example!\n\n"
             ++ pfx ++ lit "gettypes" ++ lit " strings",
           Footer := none }]) ∧
    ((L.Fields content).length = 0 →
      (FuncsPages L c G fmt now author pfx sendResult content).sent = [] ∧
      (TypesPages L c G fmt now author pfx sendResult content).sent = []) := by
  refine ⟨?_, ?_, ?_, ?_⟩
  · intro hlen
    refine ⟨errResponse (lit "Too many arguments."), ?_, rfl, rfl⟩
    unfold HandleDoc
    generalize L.Fields content = fields at hlen
    rcases fields with _ | ⟨a, _ | ⟨b, _ | ⟨k, _ | ⟨d, _ | ⟨e, more⟩⟩⟩⟩⟩
    all_goals first
      | (simp at hlen; done)
      | rfl
  · intro a b k d hfields h1 h2 h3 h4
    refine ⟨errResponse (lit "Unsupported search type " ++ L.Quote k ++
      lit "\nValid options are:\n\t`func`\n\t`type`"), ?_, rfl, rfl⟩
    unfold HandleDoc
    simp only [hfields, List.length, index, List.get?_cons_succ, List.get?_cons_zero, ok_bind,
      h1, h2, h3, h4, or_self, if_false]
    rfl
  · intro h
    exact ⟨(pagesCommand_sent _ _ _ L c G fmt now author pfx sendResult content).2 h,
      (pagesCommand_sent _ _ _ L c G fmt now author pfx sendResult content).2 h⟩
  · intro h
    exact ⟨(pagesCommand_sent _ _ _ L c G fmt now author pfx sendResult content).1 h,
      (pagesCommand_sent _ _ _ L c G fmt now author pfx sendResult content).1 h⟩

theorem argument_errors_witness :
    (∃ e, HandleDoc asciiStrings noCache (fetchOk jsonDoc) (lit ".d json func Marshal extra") =
        .ok (some e) ∧ e.Title = lit "Error" ∧ e.Description = lit "Too many arguments.") ∧
    (∃ e, HandleDoc asciiStrings noCache (fetchOk jsonDoc) (lit ".d json const Marshal") =
        .ok (some e) ∧ e.Title = lit "Error" ∧
        e.Description = lit "Unsupported search type " ++ asciiStrings.Quote (lit "const") ++
          lit "\nValid options are:\n\t`func`\n\t`type`") :=
  ⟨(argument_errors asciiStrings noCache (fetchOk jsonDoc) plainFormat 0 (lit "user1") (lit ".")
      (.ok (lit "msg1")) (lit ".d json func Marshal extra")).1 (by decide),
    (argument_errors asciiStrings noCache (fetchOk jsonDoc) plainFormat 0 (lit "user1") (lit ".")
      (.ok (lit "msg1")) (lit ".d json const Marshal")).2.1 (lit ".d") (lit "json") (lit "const")
      (lit "Marshal") (by decide) (by decide) (by decide) (by decide) (by decide)⟩

end Bot
